import Mathlib

/-!
Verification of the drivez scrape-and-normalize pipeline specification.

The backend pipeline (Field Normalizer, Listing Upserter, Scrape
Orchestrator, Run Registry) is modelled from the specification text;
the frontend client (scraper API polling, Redux car slice) is embedded
from the TypeScript sources.
-/

namespace Drivez

/-! ## Data model (spec section 3) -/

/-- Lifecycle status of a Listing, as in spec section 3. -/
inductive ListingStatus where
  | active
  | sold
  | pending
  | inactive
  | expired
deriving DecidableEq, Repr

/-- Modelled from the spec: the "more final" ordering behind the
allowed-transition table of section 4.4 (a scrape can only move status
toward a more final state). -/
def statusRank : ListingStatus → Nat
  | .active => 0
  | .pending => 1
  | .inactive => 2
  | .expired => 3
  | .sold => 4

/-- Modelled from the spec: status transitions follow the allowed-transition
table of section 4.4; a disallowed transition (such as sold to active from
scrape data alone) keeps the stored status. -/
def applyStatusTransition (old incoming : ListingStatus) : ListingStatus :=
  if statusRank old ≤ statusRank incoming then incoming else old

/-- The stable content hash of section 4.2, taken over the mutable fields
(price, mileage, status, description); modelled as the tuple of those
fields, compared for equality. -/
structure HashVal where
  hprice : Nat
  hmileage : Nat
  hstatus : ListingStatus
  hdescription : String
deriving DecidableEq, Repr

/-- A normalized listing, output of the Field Normalizer (spec 4.2). -/
structure NormalizedListing where
  source : String
  source_id : String
  title : String
  description : String
  price : Nat
  mileage : Nat
  year : Nat
  status : ListingStatus
deriving DecidableEq, Repr

/-- Modelled from the spec: content hash over the mutable fields, used by
the Upserter to detect no-op updates. -/
def contentHash (n : NormalizedListing) : HashVal :=
  ⟨n.price, n.mileage, n.status, n.description⟩

/-- A persisted Listing row (spec section 3): surrogate identifier, natural
key (source, source_id), typed fields, stored content hash and the three
local timestamps. -/
structure StoredListing where
  id : Nat
  source : String
  source_id : String
  title : String
  description : String
  price : Nat
  mileage : Nat
  year : Nat
  status : ListingStatus
  hash : HashVal
  created_at : Nat
  updated_at : Nat
  last_seen_at : Nat
deriving DecidableEq, Repr

/-- The persisted listings table. -/
abbrev ListingDb := List StoredListing

/-- Whether a stored row matches the natural key of a normalized listing. -/
def matchesKey (n : NormalizedListing) (t : StoredListing) : Bool :=
  t.source == n.source && t.source_id == n.source_id

/-- Lookup by the natural key (source, source_id) (spec section 3). -/
def findListing (db : ListingDb) (src sid : String) : Option StoredListing :=
  db.find? (fun t => t.source == src && t.source_id == sid)

/-- Outcome reported by the Listing Upserter (spec 4.4). -/
inductive UpsertResult where
  | created
  | updated
  | unchanged
deriving DecidableEq, Repr

/-- A freshly inserted row: created_at = updated_at = last_seen_at = now. -/
def mkStored (newId : Nat) (n : NormalizedListing) (now : Nat) : StoredListing :=
  { id := newId
    source := n.source
    source_id := n.source_id
    title := n.title
    description := n.description
    price := n.price
    mileage := n.mileage
    year := n.year
    status := n.status
    hash := contentHash n
    created_at := now
    updated_at := now
    last_seen_at := now }

/-- A full field update of a matched row (spec 4.4): every mutable field is
replaced, status goes through the transition table, updated_at and
last_seen_at advance, while id, the natural key and created_at are kept. -/
def updateStored (t : StoredListing) (n : NormalizedListing) (now : Nat) : StoredListing :=
  { t with
    title := n.title
    description := n.description
    price := n.price
    mileage := n.mileage
    year := n.year
    status := applyStatusTransition t.status n.status
    hash := contentHash n
    updated_at := now
    last_seen_at := now }

/-- A no-op update: only last_seen_at advances (spec 4.4). -/
def touchStored (t : StoredListing) (now : Nat) : StoredListing :=
  { t with last_seen_at := now }

/-- Row function of the no-op update: touch the matched row, keep the
rest. -/
def applyTouch (n : NormalizedListing) (now : Nat) (t : StoredListing) : StoredListing :=
  if matchesKey n t then touchStored t now else t

/-- Row function of the full update: update the matched row, keep the
rest. -/
def applyUpdate (n : NormalizedListing) (now : Nat) (t : StoredListing) : StoredListing :=
  if matchesKey n t then updateStored t n now else t

/-- Modelled from the spec: the Listing Upserter of section 4.4
(`upsert(normalized_listing) -> created | updated | unchanged`), absent
from the shown sources. Matches by (source, source_id); inserts when
absent; otherwise compares the content hash against the stored hash:
equal means only last_seen_at advances (unchanged), different means a full
field update (updated). -/
def upsert (db : ListingDb) (n : NormalizedListing) (now : Nat) :
    ListingDb × UpsertResult :=
  match findListing db n.source n.source_id with
  | none => (db ++ [mkStored db.length n now], .created)
  | some s =>
    if contentHash n = s.hash then
      (db.map (applyTouch n now), .unchanged)
    else
      (db.map (applyUpdate n now), .updated)

/-- Applying the Upserter to the fragments of one page in page order,
collecting the per-fragment results. -/
def upsertAll (db : ListingDb) (ns : List NormalizedListing) (now : Nat) :
    ListingDb × List UpsertResult :=
  match ns with
  | [] => (db, [])
  | n :: rest =>
    ((upsertAll (upsert db n now).1 rest now).1,
      (upsert db n now).2 :: (upsertAll (upsert db n now).1 rest now).2)

/-- A stored row with its last_seen_at field blanked, used to state that
every field except last_seen_at is byte-identical. -/
def eraseLastSeen (t : StoredListing) : StoredListing :=
  { t with last_seen_at := 0 }

/-! ## Field Normalizer (spec section 4.2) -/

/-- A raw listing fragment as extracted from one result page (spec
glossary): unparsed text fields. -/
structure RawFragment where
  source : String
  source_id : String
  title : String
  description : String
  priceText : String
  mileageText : String
  yearText : String
  statusText : String
deriving DecidableEq, Repr

/-- A bad field value (spec section 7 taxonomy). -/
inductive ValidationFailure where
  | badPrice
  | badMileage
  | badYear
deriving DecidableEq, Repr

/-- Strip leading and trailing whitespace of a character list. -/
def trimChars (cs : List Char) : List Char :=
  ((cs.dropWhile Char.isWhitespace).reverse.dropWhile Char.isWhitespace).reverse

/-- Split a character list into its whitespace-separated words; the
accumulator holds the current word reversed. -/
def wordsAux : List Char → List Char → List (List Char)
  | [], acc => if acc.isEmpty then [] else [acc.reverse]
  | c :: cs, acc =>
    if c.isWhitespace then
      if acc.isEmpty then wordsAux cs [] else acc.reverse :: wordsAux cs []
    else wordsAux cs (c :: acc)

/-- Collapse whitespace runs and trim, as the normalizer does to text
fields (spec 4.2). -/
def collapseWs (s : String) : String :=
  String.mk (List.intercalate [' '] (wordsAux s.data []))

/-- The numeric value of a list of decimal digit characters. -/
def natFromDigits (ds : List Char) : Nat :=
  ds.foldl (fun acc c => acc * 10 + (c.toNat - 48)) 0

/-- Modelled from the spec: parse a locale-formatted numeric text by
stripping thousands separators and currency symbols, rejecting negative
or non-numeric results (spec 4.2). -/
def parseMoney (s : String) : Option Nat :=
  if s.data.contains '-' then none
  else
    let ds := s.data.filter Char.isDigit
    if ds.isEmpty then none else some (natFromDigits ds)

/-- Parse the year field to an integer: after trimming, every character
must be a decimal digit. -/
def parseYear (s : String) : Option Nat :=
  let cs := trimChars s.data
  if cs.isEmpty then none
  else if cs.all Char.isDigit then some (natFromDigits cs) else none

/-- A year is plausible when it lies in 1900 .. current year + 1
(spec 4.2). -/
def yearOk (currentYear y : Nat) : Bool :=
  1900 ≤ y && y ≤ currentYear + 1

/-- Modelled from the spec: case-insensitive synonym mapping of the raw
status text to the closed status enumeration, defaulting to active. -/
def parseStatus (s : String) : ListingStatus :=
  let t := String.mk ((trimChars s.data).map Char.toLower)
  if t = "sold" then .sold
  else if t = "pending" then .pending
  else if t = "inactive" then .inactive
  else if t = "expired" then .expired
  else .active

/-- Modelled from the spec: the Field Normalizer of section 4.2
(`normalize(raw_fragment) -> NormalizedListing | ValidationFailure`),
absent from the shown sources. An out-of-range or unparsable year is a
ValidationFailure; price and mileage must parse to non-negative numbers. -/
def normalize (currentYear : Nat) (f : RawFragment) :
    Except ValidationFailure NormalizedListing :=
  match parseMoney f.priceText with
  | none => .error .badPrice
  | some price =>
    match parseMoney f.mileageText with
    | none => .error .badMileage
    | some mileage =>
      match parseYear f.yearText with
      | none => .error .badYear
      | some y =>
        if yearOk currentYear y then
          .ok { source := f.source
                source_id := f.source_id
                title := collapseWs f.title
                description := collapseWs f.description
                price := price
                mileage := mileage
                year := y
                status := parseStatus f.statusText }
        else .error .badYear

/-! ## Page Fetcher (spec section 4.1) -/

/-- Failure kinds of a page fetch (spec 4.1). -/
inductive FailKind where
  | timeout
  | blocked
  | httpError
  | parseFail
deriving DecidableEq, Repr

/-- Result of one fetch attempt of one page (spec 4.1): the ordered raw
fragments plus a further-page flag, or a typed failure carrying whether it
is retryable. -/
inductive FetchResult where
  | success (frags : List RawFragment) (hasMore : Bool)
  | failure (kind : FailKind) (retryable : Bool)
deriving DecidableEq, Repr

/-- Outcome of fetching one page after the retry policy of spec 4.1 has
been applied. -/
inductive FetchOutcome where
  | ok (frags : List RawFragment) (hasMore : Bool)
  | skip
  | abort (kind : FailKind)
deriving DecidableEq, Repr

/-- The fixed attempt ceiling of the retry policy (spec 4.1). -/
def retryCeiling : Nat := 3

/-- Modelled from the spec: the retry policy of section 4.1 applied to one
page, absent from the shown sources. fetch gives the result of attempt a
of a page; blocked aborts immediately without another attempt; a parse
failure is retried once then skips the page; other retryable failures are
retried up to the ceiling then abort. -/
def fetchWithRetryAux (fetch : Nat → Nat → FetchResult) (page : Nat) :
    Nat → Nat → FetchOutcome
  | a, 0 =>
    match fetch page a with
    | .success frags hasMore => .ok frags hasMore
    | .failure .blocked _ => .abort .blocked
    | .failure .parseFail _ => .skip
    | .failure .timeout _ => .abort .timeout
    | .failure .httpError _ => .abort .httpError
  | a, rem + 1 =>
    match fetch page a with
    | .success frags hasMore => .ok frags hasMore
    | .failure .blocked _ => .abort .blocked
    | .failure .parseFail _ =>
      if a = 0 then fetchWithRetryAux fetch page (a + 1) rem else .skip
    | .failure .timeout retryable =>
      if retryable then fetchWithRetryAux fetch page (a + 1) rem
      else .abort .timeout
    | .failure .httpError retryable =>
      if retryable then fetchWithRetryAux fetch page (a + 1) rem
      else .abort .httpError

/-- Fetch one page under the retry policy, starting at attempt 0. -/
def fetchWithRetry (fetch : Nat → Nat → FetchResult) (page : Nat) : FetchOutcome :=
  fetchWithRetryAux fetch page 0 retryCeiling

/-! ## Scrape Orchestrator (spec section 4.5) -/

/-- Status of a Run (spec section 3): the five-value set. -/
inductive RunStatus where
  | started
  | running
  | completed
  | error
  | cancelled
deriving DecidableEq, Repr

/-- The mutable per-run state the orchestrator accumulates: the listings
table, the counters and the run status (spec 4.5). -/
structure OrchState where
  db : ListingDb
  created : Nat
  updated : Nat
  total : Nat
  errors : Nat
  pagesDone : Nat
  status : RunStatus
  failKind : Option FailKind
deriving DecidableEq, Repr

/-- The initial orchestrator state over a given listings table. -/
def initOrch (db : ListingDb) : OrchState :=
  { db := db, created := 0, updated := 0, total := 0, errors := 0
    pagesDone := 0, status := .running, failKind := none }

/-- Observable events of a run, used to state ordering and progress
properties: a processed page (with the pages_done value after it) and each
fragment upsert (page number and fragment index within the page). -/
inductive Event where
  | fetched (page : Nat) (pagesDoneAfter : Nat)
  | upserted (page : Nat) (idx : Nat)
deriving DecidableEq, Repr

/-- The counter and table accumulation for one valid fragment: the upsert
is committed and the created/updated/total counters advance by its
result (spec 4.5). -/
def fragStep (now : Nat) (st : OrchState) (n : NormalizedListing) : OrchState :=
  { st with
    db := (upsert st.db n now).1
    total := st.total + 1
    created := st.created + (if (upsert st.db n now).2 = .created then 1 else 0)
    updated := st.updated + (if (upsert st.db n now).2 = .updated then 1 else 0) }

/-- Modelled from the spec: processing the fragments of one successful
page in page order (spec 4.5 loop body): each fragment is normalized; a
ValidationFailure is recovered locally (fragment skipped, error counter
incremented, processing continues); a valid fragment is upserted and the
created/updated/total counters accumulate. -/
def processFrags (currentYear now page : Nat) :
    List (Nat × RawFragment) → OrchState → OrchState × List Event
  | [], st => (st, [])
  | (i, f) :: rest, st =>
    match normalize currentYear f with
    | .error _ =>
      processFrags currentYear now page rest { st with errors := st.errors + 1 }
    | .ok n =>
      ((processFrags currentYear now page rest (fragStep now st n)).1,
        .upserted page i ::
          (processFrags currentYear now page rest (fragStep now st n)).2)

/-- The state after one successful page: its fragments are processed and
pages_done advances by one (spec 4.5). -/
def pageStep (currentYear now p : Nat) (st : OrchState) (frags : List RawFragment) :
    OrchState :=
  { (processFrags currentYear now p frags.enum st).1 with
    pagesDone := (processFrags currentYear now p frags.enum st).1.pagesDone + 1 }

/-- Modelled from the spec: the orchestrator loop of section 4.5, absent
from the shown sources, running from a given page with a given number of
page slots remaining in the budget. The cancellation flag is checked at
each page boundary; a blocked failure or an exhausted retry ceiling moves
the run to error keeping all committed upserts and counters; a skipped
page advances without counting; a successful page is processed fragment by
fragment and pages_done advances; the run completes when the budget is
exhausted or the fetcher signals no further page. -/
def runFrom (fetch : Nat → Nat → FetchResult) (cancel : Nat → Bool)
    (currentYear now : Nat) :
    Nat → Nat → OrchState → OrchState × List Event
  | _, 0, st => ({ st with status := .completed }, [])
  | p, rem + 1, st =>
    if cancel p then ({ st with status := .cancelled }, [])
    else
      match fetchWithRetry fetch p with
      | .abort k => ({ st with status := .error, failKind := some k }, [])
      | .skip => runFrom fetch cancel currentYear now (p + 1) rem st
      | .ok frags hasMore =>
        if hasMore then
          ((runFrom fetch cancel currentYear now (p + 1) rem
              (pageStep currentYear now p st frags)).1,
            .fetched p (pageStep currentYear now p st frags).pagesDone ::
              ((processFrags currentYear now p frags.enum st).2 ++
                (runFrom fetch cancel currentYear now (p + 1) rem
                  (pageStep currentYear now p st frags)).2))
        else
          ({ pageStep currentYear now p st frags with status := .completed },
            .fetched p (pageStep currentYear now p st frags).pagesDone ::
              (processFrags currentYear now p frags.enum st).2)

/-- One whole run over a page budget, starting from page 1 on a given
listings table (spec 4.5). -/
def runScrape (fetch : Nat → Nat → FetchResult) (cancel : Nat → Bool)
    (currentYear now maxPages : Nat) (db : ListingDb) : OrchState × List Event :=
  runFrom fetch cancel currentYear now 1 maxPages (initOrch db)

/-! ## Run Registry (spec section 4.6) -/

/-- A Run record (spec section 3). -/
structure Run where
  rid : Nat
  status : RunStatus
  startedAt : Nat
  maxPages : Nat
  pagesDone : Nat
  createdCount : Nat
  updatedCount : Nat
  totalCount : Nat
  errorCount : Nat
  message : Option String
  errPayload : Option String
deriving DecidableEq, Repr

/-- Registry-level errors (spec section 7). -/
inductive RegErr where
  | alreadyRunning
  | notFound
  | alreadyTerminal
deriving DecidableEq, Repr

/-- Whether a run occupies the single active-run slot (spec section 3
invariant: at most one run in started or running state). -/
def isActiveRun (r : Run) : Bool :=
  r.status == .started || r.status == .running

/-- Whether a run has reached a terminal status. -/
def isTerminalRun (r : Run) : Bool :=
  r.status == .completed || r.status == .error || r.status == .cancelled

/-- The process-wide table of runs (spec 4.6). -/
structure Registry where
  runs : List Run
deriving DecidableEq, Repr

/-- Number of runs occupying the active slot. -/
def countActive (reg : Registry) : Nat :=
  (reg.runs.filter isActiveRun).length

/-- A fresh Run record in running state (spec 4.5: created is transient,
immediately promoted to running on acceptance). -/
def mkRun (rid maxPages now : Nat) : Run :=
  { rid := rid, status := .running, startedAt := now, maxPages := maxPages
    pagesDone := 0, createdCount := 0, updatedCount := 0, totalCount := 0
    errorCount := 0, message := none, errPayload := none }

/-- Modelled from the spec: `start(max_pages) -> RunId | AlreadyRunningError`
of section 4.6, absent from the shown sources: rejects if any run is in
started or running state, otherwise creates exactly one Run record. -/
def startRun (reg : Registry) (maxPages now : Nat) : Registry × Except RegErr Nat :=
  if reg.runs.any isActiveRun then (reg, .error .alreadyRunning)
  else
    let rid := reg.runs.length
    ({ runs := reg.runs ++ [mkRun rid maxPages now] }, .ok rid)

/-- Lookup a run by its identifier. -/
def findRun (reg : Registry) (rid : Nat) : Option Run :=
  reg.runs.find? (fun r => r.rid == rid)

/-- The RunSnapshot shape of the status query (spec section 6): run_id,
status, started_at, max_pages, pages_done, progress fraction (as a
numerator and denominator pair), optional message, result counts and error
payload. -/
structure RunSnapshot where
  run_id : Nat
  status : RunStatus
  started_at : Nat
  max_pages : Nat
  pages_done : Nat
  progressNum : Nat
  progressDen : Nat
  message : Option String
  result : Option (Nat × Nat × Nat)
  errPayload : Option String
deriving DecidableEq, Repr

/-- The snapshot taken of one run by the status surface. -/
def snapshotOf (r : Run) : RunSnapshot :=
  { run_id := r.rid
    status := r.status
    started_at := r.startedAt
    max_pages := r.maxPages
    pages_done := r.pagesDone
    progressNum := r.pagesDone
    progressDen := r.maxPages
    message := r.message
    result := if r.status = .completed
      then some (r.createdCount, r.updatedCount, r.totalCount) else none
    errPayload := r.errPayload }

/-- Modelled from the spec: `status(run_id) -> RunSnapshot | NotFoundError`
of section 4.6, absent from the shown sources. -/
def statusQuery (reg : Registry) (rid : Nat) : Except RegErr RunSnapshot :=
  match findRun reg rid with
  | none => .error .notFound
  | some r => .ok (snapshotOf r)

/-- Row function of cancellation: mark the addressed run cancelled, keep
the rest. -/
def cancelMark (rid : Nat) (q : Run) : Run :=
  if q.rid == rid then { q with status := .cancelled } else q

/-- Modelled from the spec: `cancel(run_id) -> ok | NotFoundError |
AlreadyTerminalError` of section 4.6, absent from the shown sources. -/
def cancelRun (reg : Registry) (rid : Nat) : Registry × Except RegErr Unit :=
  match findRun reg rid with
  | none => (reg, .error .notFound)
  | some r =>
    if isTerminalRun r then (reg, .error .alreadyTerminal)
    else ({ runs := reg.runs.map (cancelMark rid) }, .ok ())

/-! ## Frontend client (embedded from the TypeScript sources) -/

/-- The ScrapeTask shape of the scraper API client
(src/unnamed/part_003): the status is carried as a string by the wire
format; result holds the created/updated/total counts. -/
structure ScrapeTask where
  task_id : String
  status : String
  result : Option (Nat × Nat × Nat)
  errMsg : Option String
deriving DecidableEq, Repr

/-- The statuses pollTask treats as terminal
(src/unnamed/part_003, the includes check inside checkStatus). -/
def pollTerminal (s : String) : Bool :=
  ["completed", "error", "not_found"].contains s

/-- The polling loop of pollTask (src/unnamed/part_003): check n happens
after n intervals have elapsed; when the elapsed time exceeds the timeout
the promise rejects, otherwise a terminal status resolves and any other
status schedules the next check. getStatus n is the response to the n-th
status request. The fuel argument only bounds the recursion and is chosen
large enough that the timeout branch always fires first. -/
def pollAux (getStatus : Nat → ScrapeTask) (interval timeout : Nat) :
    Nat → Nat → Except String ScrapeTask
  | 0, _ => .error "Polling timeout exceeded"
  | fuel + 1, n =>
    if timeout < n * interval then .error "Polling timeout exceeded"
    else
      let t := getStatus n
      if pollTerminal t.status then .ok t
      else pollAux getStatus interval timeout fuel (n + 1)

/-- pollTask of the scraper API client (src/unnamed/part_003). -/
def pollTask (getStatus : Nat → ScrapeTask) (interval timeout : Nat) :
    Except String ScrapeTask :=
  pollAux getStatus interval timeout (timeout / interval + 2) 0

/-- A car listing as the frontend types it (src/frontend/src/types/car.ts),
reduced to the fields the store logic touches. -/
structure CarListing where
  lid : Nat
  title : String
  price : Nat
  year : Nat
deriving DecidableEq, Repr

/-- The value held by the car slice error field: the rejected-thunk message
paths store a string; the checkScrapeStatus.fulfilled handler stores the
whole action payload (cast to string in the source). -/
inductive SliceErr where
  | msg (s : String)
  | payloadVal (p : ScrapeTask)
deriving DecidableEq, Repr

/-- The car slice state (src/frontend/src/store/slices/carSlice.ts,
CarState), with the filters field omitted as no reducer studied here
reads it. -/
structure CarState where
  listings : List CarListing
  currentListing : Option CarListing
  loading : Bool
  error : Option SliceErr
  total : Nat
deriving DecidableEq, Repr

/-- The JavaScript a-or-else-b fallback used for the error message:
null, absent or empty string falls back to the default. -/
def orElseStr (o : Option String) (dflt : String) : String :=
  match o with
  | none => dflt
  | some s => if s = "" then dflt else s

/-- The checkScrapeStatus.fulfilled case of the car slice
(src/frontend/src/store/slices/carSlice.ts lines 116 to 126): a completed
payload with a result clears loading; an error payload stores its message
and clears loading; then, on every path, the error field is assigned the
action payload itself. -/
def checkScrapeStatusFulfilled (st : CarState) (payload : ScrapeTask) : CarState :=
  let st1 :=
    if payload.status = "completed" ∧ payload.result.isSome then
      { st with loading := false }
    else if payload.status = "error" then
      { st with error := some (.msg (orElseStr payload.errMsg "Scraping failed"))
                loading := false }
    else st
  { st1 with error := some (.payloadVal payload) }

/-! ## Helper observers and concrete scenarios -/

/-- The natural key of a normalized listing (spec section 3). -/
def nKey (n : NormalizedListing) : String × String := (n.source, n.source_id)

/-- The page of an event. -/
def eventPage : Event → Nat
  | .fetched p _ => p
  | .upserted p _ => p

/-- Pages of the processed-page events of a trace, in order. -/
def fetchedPages (tr : List Event) : List Nat :=
  tr.filterMap fun e => match e with
    | .fetched p _ => some p
    | .upserted _ _ => none

/-- The successive pages_done values recorded along a trace. -/
def pagesDoneSeq (tr : List Event) : List Nat :=
  tr.filterMap fun e => match e with
    | .fetched _ d => some d
    | .upserted _ _ => none

/-- The fragment indices upserted for page q, in trace order. -/
def upsertIdxs (q : Nat) (tr : List Event) : List Nat :=
  tr.filterMap fun e => match e with
    | .upserted p i => if p = q then some i else none
    | .fetched _ _ => none

/-- A concrete raw fragment used by the spec scenarios. -/
def demoFrag (sid yr : String) : RawFragment :=
  { source := "yad2", source_id := sid, title := "car", description := "desc"
    priceText := "50,000", mileageText := "120,000", yearText := yr
    statusText := "" }

/-- Scenario A oracle (spec section 8): page 1 returns 2 valid fragments
and 1 fragment with an unparsable year, and no further page. -/
def scenarioAOracle : Nat → Nat → FetchResult := fun p _ =>
  if p = 1 then
    .success [demoFrag "a" "2018", demoFrag "b" "20xx", demoFrag "c" "2019"] false
  else .failure .timeout true

/-- Scenario B oracle (spec section 8): page 1 succeeds with one valid
fragment and a further page, page 2 is blocked. -/
def scenarioBOracle : Nat → Nat → FetchResult := fun p _ =>
  if p = 1 then .success [demoFrag "a" "2018"] true
  else .failure .blocked false

/-- The never-cancelled flag. -/
def noCancel : Nat → Bool := fun _ => false

/-- A status stream stuck on cancelled, as returned for a run that ends in
cancelled state. -/
def cancelledStream : Nat → ScrapeTask := fun _ => ⟨"t", "cancelled", none, none⟩

/-- A concrete normalized listing with a given price (Scenario C of the
spec: the same source_id seen with different prices on two days). -/
def demoN (price : Nat) : NormalizedListing :=
  ⟨"yad2", "a", "t", "d", price, 100, 2018, .active⟩

/-- A one-row listings table holding the day-1 sight of Scenario C. -/
def demoDb : ListingDb := [mkStored 0 (demoN 50000) 1]

/-- A stored row already marked sold. -/
def demoSold : StoredListing := { mkStored 0 (demoN 50000) 1 with status := .sold }

/-- A table holding one sold row. -/
def demoSoldDb : ListingDb := [demoSold]

/-- An incoming active sighting with a changed price. -/
def demoNA : NormalizedListing := demoN 48000

/-! ## Theorems -/

/-- C10: after every fulfilled checkScrapeStatus action, the car slice
error field is unconditionally overwritten with the action payload, even
when the payload status is completed, so a successful status poll never
leaves the error field equal to null. -/
theorem checkScrapeStatus_sets_error_to_payload (st : CarState) (payload : ScrapeTask) :
    (checkScrapeStatusFulfilled st payload).error = some (.payloadVal payload) ∧
    (checkScrapeStatusFulfilled st payload).error ≠ none :=
  ⟨rfl, by simp [checkScrapeStatusFulfilled]⟩

/-- If no status returned within the polling budget is terminal, the
polling loop rejects with the timeout message, from any starting check. -/
lemma pollAux_no_terminal (getStatus : Nat → ScrapeTask) (interval timeout : Nat) :
    ∀ fuel n,
      (∀ m, n ≤ m → m * interval ≤ timeout → pollTerminal (getStatus m).status = false) →
      pollAux getStatus interval timeout fuel n = .error "Polling timeout exceeded" := by
  intro fuel
  induction fuel with
  | zero => intro n _; rfl
  | succ fuel ih =>
    intro n h
    simp only [pollAux]
    by_cases hto : timeout < n * interval
    · simp [hto]
    · have hn : pollTerminal (getStatus n).status = false :=
        h n le_rfl (Nat.le_of_not_lt hto)
      simp only [if_neg hto, hn, Bool.false_eq_true, if_false]
      exact ih (n + 1) (fun m hm hmt => h m (Nat.le_of_succ_le hm) hmt)

/-- If check k is the first terminal one and lies within the budget, the
polling loop resolves with that snapshot, given enough fuel. -/
lemma pollAux_finds (getStatus : Nat → ScrapeTask) (interval timeout : Nat) :
    ∀ fuel n k, n ≤ k → k * interval ≤ timeout →
      pollTerminal (getStatus k).status = true →
      (∀ m, n ≤ m → m < k → pollTerminal (getStatus m).status = false) →
      k - n < fuel →
      pollAux getStatus interval timeout fuel n = .ok (getStatus k) := by
  intro fuel
  induction fuel with
  | zero => intro n k _ _ _ _ hf; omega
  | succ fuel ih =>
    intro n k hnk hkt hterm hfirst hf
    simp only [pollAux]
    have h1 : ¬ timeout < n * interval := by
      have : n * interval ≤ k * interval := Nat.mul_le_mul_right _ hnk
      omega
    rcases Nat.eq_or_lt_of_le hnk with heq | hlt
    · subst heq
      simp [h1, hterm]
    · have hn : pollTerminal (getStatus n).status = false := hfirst n le_rfl hlt
      simp only [if_neg h1, hn, Bool.false_eq_true, if_false]
      exact ih (n + 1) k hlt hkt hterm (fun m hm hmk => hfirst m (by omega) hmk)
        (by omega)

/-- C9: pollTask resolves with the task snapshot exactly when some status
check within the timeout budget returns a status in the terminal set
(completed, error, not_found); when no check within the budget does, and
in particular for a run that ends in cancelled, which the client does not
treat as terminal, pollTask rejects with the timeout message. -/
theorem pollTask_terminal_set (getStatus : Nat → ScrapeTask) (interval timeout : Nat)
    (hpos : 0 < interval) :
    (∀ t, pollTask getStatus interval timeout = .ok t ↔
      ∃ n, n * interval ≤ timeout ∧ pollTerminal (getStatus n).status = true ∧
        (∀ m, m < n → pollTerminal (getStatus m).status = false) ∧ getStatus n = t) ∧
    ((∀ n, n * interval ≤ timeout → pollTerminal (getStatus n).status = false) →
      pollTask getStatus interval timeout = .error "Polling timeout exceeded") := by
  have hfind : ∀ k, k * interval ≤ timeout →
      pollTerminal (getStatus k).status = true →
      (∀ m, m < k → pollTerminal (getStatus m).status = false) →
      pollTask getStatus interval timeout = .ok (getStatus k) := by
    intro k h1 h2 h3
    have hk : k ≤ timeout / interval := (Nat.le_div_iff_mul_le hpos).mpr h1
    exact pollAux_finds getStatus interval timeout _ 0 k (Nat.zero_le _) h1 h2
      (fun m _ hmk => h3 m hmk) (by omega)
  constructor
  · intro t
    constructor
    · intro hok
      by_cases hex : ∃ m, pollTerminal (getStatus m).status = true ∧
          m * interval ≤ timeout
      · obtain ⟨m, hm1, hm2⟩ := hex
        have hQ : ∃ q, pollTerminal (getStatus q).status = true := ⟨m, hm1⟩
        classical
        let q := Nat.find hQ
        have hq1 : pollTerminal (getStatus q).status = true := Nat.find_spec hQ
        have hqmin : ∀ j, j < q → pollTerminal (getStatus j).status = false := by
          intro j hj
          have := Nat.find_min hQ hj
          simpa using this
        have hqm : q ≤ m := Nat.find_min' hQ hm1
        have hq2 : q * interval ≤ timeout :=
          le_trans (Nat.mul_le_mul_right _ hqm) hm2
        have := hfind q hq2 hq1 hqmin
        rw [hok] at this
        refine ⟨q, hq2, hq1, hqmin, ?_⟩
        exact (Except.ok.injEq _ _).mp this.symm |>.symm ▸ rfl
      · exfalso
        push_neg at hex
        have : pollTask getStatus interval timeout = .error "Polling timeout exceeded" := by
          apply pollAux_no_terminal
          intro m _ hmt
          by_contra hc
          exact absurd (hex m (by simpa using hc)) (by omega)
        rw [hok] at this
        exact Except.noConfusion this
    · rintro ⟨n, h1, h2, h3, rfl⟩
      exact hfind n h1 h2 h3
  · intro h
    exact pollAux_no_terminal getStatus interval timeout _ 0 (fun m _ hmt => h m hmt)

/-- Witness for C9: a task stuck in cancelled status times out. -/
theorem pollTask_terminal_set_witness :
    pollTask cancelledStream 1000 300000 = Except.error "Polling timeout exceeded" :=
  (pollTask_terminal_set cancelledStream 1000 300000 (by decide)).2
    (fun _ _ => rfl)

/-- Marking a run cancelled does not change its identifier. -/
lemma cancelMark_rid (rid : Nat) (q : Run) : (cancelMark rid q).rid = q.rid := by
  unfold cancelMark
  by_cases h : q.rid == rid <;> simp [h]

/-- C5: the status value returned by the status query for an existing run
is drawn exactly from the five-value set started, running, completed,
error, cancelled; in particular a run cancelled through the cancel surface
is reportable with status cancelled. -/
theorem statusQuery_five_values (reg : Registry) (rid : Nat) :
    (∀ snap, statusQuery reg rid = .ok snap →
      snap.status = .started ∨ snap.status = .running ∨ snap.status = .completed ∨
        snap.status = .error ∨ snap.status = .cancelled) ∧
    (∀ r, findRun reg rid = some r → isTerminalRun r = false →
      ∃ snap, statusQuery (cancelRun reg rid).1 rid = .ok snap ∧
        snap.status = .cancelled) := by
  constructor
  · intro snap _
    cases snap.status <;> simp
  · intro r hfind hterm
    have hfind' : reg.runs.find? (fun q : Run => q.rid == rid) = some r := hfind
    have hrid : (r.rid == rid) = true := by
      have := List.find?_some hfind'
      simpa using this
    have hc : (cancelRun reg rid).1 = ⟨reg.runs.map (cancelMark rid)⟩ := by
      unfold cancelRun
      rw [hfind]
      simp [hterm]
    have hpred : ((fun q : Run => q.rid == rid) ∘ cancelMark rid) =
        (fun q : Run => q.rid == rid) := by
      funext q
      simp [Function.comp, cancelMark_rid]
    have hfr : findRun ⟨reg.runs.map (cancelMark rid)⟩ rid =
        some (cancelMark rid r) := by
      unfold findRun
      rw [List.find?_map, hpred]
      have : reg.runs.find? (fun q : Run => q.rid == rid) = some r := hfind
      rw [this]
      rfl
    refine ⟨snapshotOf (cancelMark rid r), ?_, ?_⟩
    · rw [hc]
      unfold statusQuery
      rw [hfr]
    · unfold cancelMark
      rw [hrid]
      rfl

/-- Witness for C5: a registry holding one running run; its snapshot
status lies in the five-value set, and cancelling it is reportable. -/
theorem statusQuery_five_values_witness :
    (∀ snap, statusQuery ⟨[mkRun 0 5 10]⟩ 0 = .ok snap →
      snap.status = .started ∨ snap.status = .running ∨ snap.status = .completed ∨
        snap.status = .error ∨ snap.status = .cancelled) ∧
    (∃ snap, statusQuery (cancelRun ⟨[mkRun 0 5 10]⟩ 0).1 0 = .ok snap ∧
      snap.status = .cancelled) :=
  ⟨(statusQuery_five_values ⟨[mkRun 0 5 10]⟩ 0).1,
   (statusQuery_five_values ⟨[mkRun 0 5 10]⟩ 0).2 (mkRun 0 5 10) (by decide)
     (by decide)⟩

/-- C1: start rejects with AlreadyRunningError and creates no Run while
some run is in started or running state, and otherwise creates exactly one
new Run; hence two start calls issued back-to-back, before the first
reaches a terminal state, leave exactly one running run and return one
AlreadyRunningError. -/
theorem startRun_single_run_invariant (reg : Registry) (mp1 mp2 now1 now2 : Nat)
    (h : reg.runs.any isActiveRun = false) :
    (∀ reg' mp now, reg'.runs.any isActiveRun = true →
      startRun reg' mp now = (reg', .error .alreadyRunning)) ∧
    ((startRun reg mp1 now1).2 = .ok reg.runs.length ∧
      (startRun reg mp1 now1).1.runs.length = reg.runs.length + 1 ∧
      countActive (startRun reg mp1 now1).1 = 1) ∧
    (startRun (startRun reg mp1 now1).1 mp2 now2 =
      ((startRun reg mp1 now1).1, .error .alreadyRunning) ∧
      countActive (startRun (startRun reg mp1 now1).1 mp2 now2).1 = 1) := by
  have hstart1 : startRun reg mp1 now1 =
      ({ runs := reg.runs ++ [mkRun reg.runs.length mp1 now1] }, .ok reg.runs.length) := by
    unfold startRun
    rw [h]
    rfl
  have hfilter : reg.runs.filter isActiveRun = [] := by
    rw [List.filter_eq_nil_iff]
    intro a ha
    exact (List.any_eq_false.mp h) a ha
  have hactive1 : countActive (startRun reg mp1 now1).1 = 1 := by
    rw [hstart1]
    unfold countActive
    simp only [List.filter_append, hfilter]
    rfl
  have hany1 : (startRun reg mp1 now1).1.runs.any isActiveRun = true := by
    rw [hstart1]
    apply List.any_eq_true.mpr
    exact ⟨mkRun reg.runs.length mp1 now1, by simp, rfl⟩
  have hreject : ∀ reg' mp now, reg'.runs.any isActiveRun = true →
      startRun reg' mp now = (reg', .error .alreadyRunning) := by
    intro reg' mp now ha
    unfold startRun
    rw [ha]
    rfl
  refine ⟨hreject, ⟨?_, ?_, hactive1⟩, ?_, ?_⟩
  · rw [hstart1]
  · rw [hstart1]
    simp
  · exact hreject _ mp2 now2 hany1
  · rw [hreject _ mp2 now2 hany1]
    exact hactive1

/-- The touch row function preserves the natural key. -/
lemma applyTouch_key (n : NormalizedListing) (now : Nat) (t : StoredListing) :
    (applyTouch n now t).source = t.source ∧
      (applyTouch n now t).source_id = t.source_id := by
  unfold applyTouch touchStored
  split <;> simp

/-- The update row function preserves the natural key. -/
lemma applyUpdate_key (n : NormalizedListing) (now : Nat) (t : StoredListing) :
    (applyUpdate n now t).source = t.source ∧
      (applyUpdate n now t).source_id = t.source_id := by
  unfold applyUpdate updateStored
  split <;> simp

/-- Natural-key lookup commutes with any row map preserving the key. -/
lemma findListing_map_keyPreserving (db : ListingDb) (src sid : String)
    (f : StoredListing → StoredListing)
    (hf : ∀ t, (f t).source = t.source ∧ (f t).source_id = t.source_id) :
    findListing (db.map f) src sid = (findListing db src sid).map f := by
  unfold findListing
  rw [List.find?_map]
  have hpred : ((fun t : StoredListing => t.source == src && t.source_id == sid) ∘ f) =
      (fun t : StoredListing => t.source == src && t.source_id == sid) := by
    funext t
    simp [Function.comp, (hf t).1, (hf t).2]
  rw [hpred]

/-- The row found by the natural-key lookup of an upsert matches the key. -/
lemma matchesKey_of_findListing (db : ListingDb) (n : NormalizedListing)
    (s : StoredListing) (hfind : findListing db n.source n.source_id = some s) :
    matchesKey n s = true := by
  have := List.find?_some (show db.find? _ = some s from hfind)
  simpa [matchesKey] using this

/-- The value of an upsert hitting an equal content hash. -/
lemma upsert_eq_touch (db : ListingDb) (n : NormalizedListing) (now : Nat)
    (s : StoredListing) (hfind : findListing db n.source n.source_id = some s)
    (hh : contentHash n = s.hash) :
    upsert db n now = (db.map (applyTouch n now), .unchanged) := by
  unfold upsert
  rw [hfind]
  simp [hh]

/-- The value of an upsert hitting a different content hash. -/
lemma upsert_eq_update (db : ListingDb) (n : NormalizedListing) (now : Nat)
    (s : StoredListing) (hfind : findListing db n.source n.source_id = some s)
    (hh : ¬ contentHash n = s.hash) :
    upsert db n now = (db.map (applyUpdate n now), .updated) := by
  unfold upsert
  rw [hfind]
  simp [hh]

/-- The value of an upsert missing the natural key. -/
lemma upsert_eq_insert (db : ListingDb) (n : NormalizedListing) (now : Nat)
    (hfind : findListing db n.source n.source_id = none) :
    upsert db n now = (db ++ [mkStored db.length n now], .created) := by
  unfold upsert
  rw [hfind]

/-- C3: an upsert on an existing listing, matched by the natural key,
never changes the stored created_at or the surrogate identifier, even when
it reports updated with new field values such as a changed price, while
updated_at and last_seen_at are advanced to the time of the upsert. -/
theorem upsert_preserves_created_at_and_id (db : ListingDb) (n : NormalizedListing)
    (now : Nat) (s : StoredListing)
    (hfind : findListing db n.source n.source_id = some s) :
    ∃ s', findListing (upsert db n now).1 n.source n.source_id = some s' ∧
      s'.created_at = s.created_at ∧ s'.id = s.id ∧
      ((upsert db n now).2 = .updated →
        s'.updated_at = now ∧ s'.last_seen_at = now ∧ s'.price = n.price) := by
  have hmk : matchesKey n s = true := matchesKey_of_findListing db n s hfind
  by_cases hh : contentHash n = s.hash
  · have hup := upsert_eq_touch db n now s hfind hh
    refine ⟨touchStored s now, ?_, rfl, rfl, ?_⟩
    · rw [hup]
      show findListing (db.map (applyTouch n now)) n.source n.source_id = _
      rw [findListing_map_keyPreserving db _ _ _ (applyTouch_key n now), hfind]
      simp [applyTouch, hmk]
    · rw [hup]
      intro h
      exact absurd h (by simp)
  · have hup := upsert_eq_update db n now s hfind hh
    refine ⟨updateStored s n now, ?_, rfl, rfl, fun _ => ⟨rfl, rfl, rfl⟩⟩
    rw [hup]
    show findListing (db.map (applyUpdate n now)) n.source n.source_id = _
    rw [findListing_map_keyPreserving db _ _ _ (applyUpdate_key n now), hfind]
    simp [applyUpdate, hmk]

/-- Witness for C3: Scenario C, price 50000 on day 1 and 48000 on day 2. -/
theorem upsert_preserves_created_at_and_id_witness :
    ∃ s', findListing (upsert demoDb demoNA 2).1 demoNA.source demoNA.source_id =
        some s' ∧
      s'.created_at = (mkStored 0 (demoN 50000) 1).created_at ∧
      s'.id = (mkStored 0 (demoN 50000) 1).id ∧
      ((upsert demoDb demoNA 2).2 = .updated →
        s'.updated_at = 2 ∧ s'.last_seen_at = 2 ∧ s'.price = demoNA.price) :=
  upsert_preserves_created_at_and_id demoDb demoNA 2 (mkStored 0 (demoN 50000) 1)
    (by decide)

/-- Both conjuncts of the transition-legality property hold of the
transition function itself. -/
lemma applyStatusTransition_legal (a b : ListingStatus) :
    (a = .sold → applyStatusTransition a b ≠ .active) ∧
    (applyStatusTransition a b = a ∨
      statusRank a ≤ statusRank (applyStatusTransition a b)) := by
  cases a <;> cases b <;> exact (by decide)

/-- C4: no upsert from scrape data ever moves a stored listing status from
sold to active, and every status change an upsert produces is contained in
the allowed-transition table: the status only moves toward a more final
state. -/
theorem upsert_status_transition_legal (db : ListingDb) (n : NormalizedListing)
    (now : Nat) (i : Nat) (t t' : StoredListing)
    (h1 : db[i]? = some t) (h2 : (upsert db n now).1[i]? = some t') :
    (t.status = .sold → t'.status ≠ .active) ∧
    (t'.status = t.status ∨ statusRank t.status ≤ statusRank t'.status) := by
  cases hfind : findListing db n.source n.source_id with
  | none =>
    have hup := upsert_eq_insert db n now hfind
    rw [hup] at h2
    have hi : i < db.length := by
      rcases List.getElem?_eq_some_iff.mp h1 with ⟨h, _⟩
      exact h
    rw [List.getElem?_append_left hi, h1] at h2
    cases h2
    exact ⟨fun hs => by rw [hs]; simp, Or.inl rfl⟩
  | some s =>
    by_cases hh : contentHash n = s.hash
    · have hup := upsert_eq_touch db n now s hfind hh
      rw [hup] at h2
      simp only [List.getElem?_map, h1, Option.map_some] at h2
      cases h2
      have hst : (applyTouch n now t).status = t.status := by
        unfold applyTouch touchStored
        split <;> rfl
      rw [hst]
      exact ⟨fun hs => by rw [hs]; simp, Or.inl rfl⟩
    · have hup := upsert_eq_update db n now s hfind hh
      rw [hup] at h2
      simp only [List.getElem?_map, h1, Option.map_some] at h2
      cases h2
      unfold applyUpdate
      by_cases hmk : matchesKey n t
      · rw [if_pos hmk]
        have hst : (updateStored t n now).status =
            applyStatusTransition t.status n.status := rfl
        rw [hst]
        exact applyStatusTransition_legal t.status n.status
      · rw [if_neg hmk]
        exact ⟨fun hs => by rw [hs]; simp, Or.inl rfl⟩

/-- Witness for C4: a sold row hit by an active sighting with a new price
stays sold. -/
theorem upsert_status_transition_legal_witness :
    (demoSold.status = .sold → (updateStored demoSold demoNA 2).status ≠ .active) ∧
    ((updateStored demoSold demoNA 2).status = demoSold.status ∨
      statusRank demoSold.status ≤
        statusRank (updateStored demoSold demoNA 2).status) :=
  upsert_status_transition_legal demoSoldDb demoNA 2 0 demoSold
    (updateStored demoSold demoNA 2) (by decide) (by decide)

/-- Touching a row does not change any field but last_seen_at. -/
lemma erase_applyTouch (n : NormalizedListing) (now : Nat) (t : StoredListing) :
    eraseLastSeen (applyTouch n now t) = eraseLastSeen t := by
  unfold applyTouch touchStored eraseLastSeen
  split <;> rfl

/-- Touching a row preserves the stored content hash. -/
lemma hash_applyTouch (n : NormalizedListing) (now : Nat) (t : StoredListing) :
    (applyTouch n now t).hash = t.hash := by
  unfold applyTouch touchStored
  split <;> rfl

/-- A row that does not match the key is left alone by the touch map. -/
lemma applyTouch_not_match (n : NormalizedListing) (now : Nat) (t : StoredListing)
    (hmk : matchesKey n t = false) : applyTouch n now t = t := by
  unfold applyTouch
  rw [hmk]
  rfl

/-- A row that does not match the key is left alone by the update map. -/
lemma applyUpdate_not_match (n : NormalizedListing) (now : Nat) (t : StoredListing)
    (hmk : matchesKey n t = false) : applyUpdate n now t = t := by
  unfold applyUpdate
  rw [hmk]
  rfl

/-- An upsert leaves the lookup of every other natural key untouched. -/
lemma findListing_upsert_other (db : ListingDb) (n : NormalizedListing) (now : Nat)
    (src sid : String) (hne : ¬(n.source = src ∧ n.source_id = sid)) :
    findListing (upsert db n now).1 src sid = findListing db src sid := by
  have hother : ∀ u : StoredListing, (u.source == src && u.source_id == sid) = true →
      matchesKey n u = false := by
    intro u hu
    have huu : u.source = src ∧ u.source_id = sid := by simpa using hu
    cases hmk : matchesKey n u with
    | false => rfl
    | true =>
      exfalso
      have hmm : u.source = n.source ∧ u.source_id = n.source_id := by
        unfold matchesKey at hmk
        simpa using hmk
      exact hne ⟨hmm.1.symm.trans huu.1, hmm.2.symm.trans huu.2⟩
  cases hfind : findListing db n.source n.source_id with
  | none =>
    rw [upsert_eq_insert db n now hfind]
    unfold findListing
    rw [List.find?_append]
    have hmkf : ((mkStored db.length n now).source == src &&
        (mkStored db.length n now).source_id == sid) = false := by
      by_contra hc
      have := hother (mkStored db.length n now) (Bool.of_not_eq_false hc)
      unfold matchesKey mkStored at this
      simp at this
    show ((db.find? _).or ([mkStored db.length n now].find? _)) = db.find? _
    rw [show ([mkStored db.length n now].find?
        (fun t => t.source == src && t.source_id == sid)) = none from by
      simp [List.find?, hmkf]]
    cases db.find? (fun t : StoredListing => t.source == src && t.source_id == sid) <;> rfl
  | some s =>
    by_cases hh : contentHash n = s.hash
    · rw [upsert_eq_touch db n now s hfind hh]
      rw [findListing_map_keyPreserving db _ _ _ (applyTouch_key n now)]
      cases hfind2 : findListing db src sid with
      | none => rfl
      | some u =>
        have hu := List.find?_some (show db.find? _ = some u from hfind2)
        show some (applyTouch n now u) = some u
        rw [applyTouch_not_match n now u (hother u hu)]
    · rw [upsert_eq_update db n now s hfind hh]
      rw [findListing_map_keyPreserving db _ _ _ (applyUpdate_key n now)]
      cases hfind2 : findListing db src sid with
      | none => rfl
      | some u =>
        have hu := List.find?_some (show db.find? _ = some u from hfind2)
        show some (applyUpdate n now u) = some u
        rw [applyUpdate_not_match n now u (hother u hu)]

/-- After an upsert, the natural key of the upserted listing maps to a row
whose stored hash is the incoming content hash. -/
lemma findListing_upsert_self (db : ListingDb) (n : NormalizedListing) (now : Nat) :
    ∃ s', findListing (upsert db n now).1 n.source n.source_id = some s' ∧
      s'.hash = contentHash n := by
  cases hfind : findListing db n.source n.source_id with
  | none =>
    refine ⟨mkStored db.length n now, ?_, rfl⟩
    rw [upsert_eq_insert db n now hfind]
    unfold findListing
    rw [List.find?_append]
    have : findListing db n.source n.source_id = none := hfind
    unfold findListing at this
    rw [this]
    simp [List.find?, mkStored]
  | some s =>
    have hmk : matchesKey n s = true := matchesKey_of_findListing db n s hfind
    by_cases hh : contentHash n = s.hash
    · refine ⟨touchStored s now, ?_, ?_⟩
      · rw [upsert_eq_touch db n now s hfind hh]
        rw [findListing_map_keyPreserving db _ _ _ (applyTouch_key n now), hfind]
        simp [applyTouch, hmk]
      · show s.hash = contentHash n
        exact hh.symm
    · refine ⟨updateStored s n now, ?_, rfl⟩
      rw [upsert_eq_update db n now s hfind hh]
      rw [findListing_map_keyPreserving db _ _ _ (applyUpdate_key n now), hfind]
      simp [applyUpdate, hmk]

/-- A sequence of upserts with pairwise-distinct natural keys leaves every
key it does not carry untouched. -/
lemma findListing_upsertAll_other (now : Nat) (src sid : String) :
    ∀ (ns : List NormalizedListing) (db : ListingDb),
      (∀ m ∈ ns, ¬(m.source = src ∧ m.source_id = sid)) →
      findListing (upsertAll db ns now).1 src sid = findListing db src sid := by
  intro ns
  induction ns with
  | nil => intro db _; rfl
  | cons n rest ih =>
    intro db h
    show findListing (upsertAll (upsert db n now).1 rest now).1 src sid = _
    rw [ih (upsert db n now).1 (fun m hm => h m (List.mem_cons_of_mem _ hm))]
    exact findListing_upsert_other db n now src sid (h n (List.mem_cons_self _ _))

/-- After one pass of a page with pairwise-distinct natural keys, every
fragment key maps to a row whose stored hash is the fragment content
hash. -/
lemma upsertAll_establishes (now : Nat) :
    ∀ (ns : List NormalizedListing) (db : ListingDb),
      (ns.map nKey).Nodup →
      ∀ m ∈ ns, ∃ s', findListing (upsertAll db ns now).1 m.source m.source_id =
        some s' ∧ s'.hash = contentHash m := by
  intro ns
  induction ns with
  | nil => intro db _ m hm; cases hm
  | cons n rest ih =>
    intro db hnd m hm
    have hnd' : (∀ x ∈ rest, ¬ nKey x = nKey n) ∧ (rest.map nKey).Nodup := by
      simpa using hnd
    rcases List.mem_cons.mp hm with rfl | hmr
    · show ∃ s', findListing (upsertAll (upsert db m now).1 rest now).1
        m.source m.source_id = some s' ∧ s'.hash = contentHash m
      have hrest : ∀ q ∈ rest, ¬(q.source = m.source ∧ q.source_id = m.source_id) := by
        intro q hq hcon
        apply hnd'.1 q hq
        unfold nKey
        rw [hcon.1, hcon.2]
      rw [findListing_upsertAll_other now m.source m.source_id rest
        (upsert db m now).1 hrest]
      exact findListing_upsert_self db m now
    · exact ih (upsert db n now).1 hnd'.2 m hmr

/-- A second pass over rows whose stored hashes already equal the incoming
content hashes reports unchanged throughout and changes nothing except
last_seen_at. -/
lemma upsertAll_unchanged (now : Nat) :
    ∀ (ns : List NormalizedListing) (db : ListingDb),
      (∀ m ∈ ns, ∃ s', findListing db m.source m.source_id = some s' ∧
        s'.hash = contentHash m) →
      (upsertAll db ns now).2 = List.replicate ns.length .unchanged ∧
      (upsertAll db ns now).1.map eraseLastSeen = db.map eraseLastSeen := by
  intro ns
  induction ns with
  | nil => intro db _; exact ⟨rfl, rfl⟩
  | cons n rest ih =>
    intro db h
    obtain ⟨s', hfind, hhash⟩ := h n (List.mem_cons_self _ _)
    have hh : contentHash n = s'.hash := hhash.symm
    have hup := upsert_eq_touch db n now s' hfind hh
    have hdb1 : (upsert db n now).1 = db.map (applyTouch n now) := by rw [hup]
    have hres : (upsert db n now).2 = .unchanged := by rw [hup]
    have hrest : ∀ m ∈ rest, ∃ u, findListing (upsert db n now).1
        m.source m.source_id = some u ∧ u.hash = contentHash m := by
      intro m hm
      obtain ⟨u, hfu, hhu⟩ := h m (List.mem_cons_of_mem _ hm)
      refine ⟨applyTouch n now u, ?_, ?_⟩
      · rw [hdb1, findListing_map_keyPreserving db _ _ _ (applyTouch_key n now), hfu]
        rfl
      · rw [hash_applyTouch]
        exact hhu
    obtain ⟨ih1, ih2⟩ := ih (upsert db n now).1 hrest
    constructor
    · show (upsert db n now).2 :: (upsertAll (upsert db n now).1 rest now).2 = _
      rw [hres, ih1]
      rfl
    · show (upsertAll (upsert db n now).1 rest now).1.map eraseLastSeen = _
      rw [ih2, hdb1, List.map_map]
      have : (eraseLastSeen ∘ applyTouch n now) = eraseLastSeen := by
        funext t
        exact erase_applyTouch n now t
      rw [this]

/-- C2: an upsert whose content hash equals the stored hash of the matched
row reports unchanged and leaves every stored field except last_seen_at
byte-identical; consequently, running the same page of fragments through
the Listing Upserter twice with unchanged content reports unchanged
throughout the second pass and changes nothing but last_seen_at. -/
theorem upsert_unchanged_idempotent (db : ListingDb) (n : NormalizedListing)
    (now : Nat) (s : StoredListing)
    (hfind : findListing db n.source n.source_id = some s)
    (hh : contentHash n = s.hash) :
    ((upsert db n now).2 = .unchanged ∧
      (upsert db n now).1.map eraseLastSeen = db.map eraseLastSeen) ∧
    (∀ (db0 : ListingDb) (ns : List NormalizedListing) (now1 now2 : Nat),
      (ns.map nKey).Nodup →
      (upsertAll (upsertAll db0 ns now1).1 ns now2).2 =
        List.replicate ns.length .unchanged ∧
      (upsertAll (upsertAll db0 ns now1).1 ns now2).1.map eraseLastSeen =
        (upsertAll db0 ns now1).1.map eraseLastSeen) := by
  constructor
  · have hup := upsert_eq_touch db n now s hfind hh
    refine ⟨by rw [hup], ?_⟩
    rw [hup]
    show (db.map (applyTouch n now)).map eraseLastSeen = _
    rw [List.map_map]
    have : (eraseLastSeen ∘ applyTouch n now) = eraseLastSeen := by
      funext t
      exact erase_applyTouch n now t
    rw [this]
  · intro db0 ns now1 now2 hnd
    exact upsertAll_unchanged now2 ns (upsertAll db0 ns now1).1
      (upsertAll_establishes now1 ns db0 hnd)

/-- Witness for C2: re-seeing the day-1 row with identical content. -/
theorem upsert_unchanged_idempotent_witness :
    ((upsert demoDb (demoN 50000) 2).2 = .unchanged ∧
      (upsert demoDb (demoN 50000) 2).1.map eraseLastSeen =
        demoDb.map eraseLastSeen) ∧
    ((upsertAll (upsertAll [] [demoN 50000] 1).1 [demoN 50000] 2).2 =
        List.replicate 1 .unchanged ∧
      (upsertAll (upsertAll [] [demoN 50000] 1).1 [demoN 50000] 2).1.map
          eraseLastSeen =
        (upsertAll [] [demoN 50000] 1).1.map eraseLastSeen) :=
  ⟨(upsert_unchanged_idempotent demoDb (demoN 50000) 2 (mkStored 0 (demoN 50000) 1)
      (by decide) (by decide)).1,
   (upsert_unchanged_idempotent demoDb (demoN 50000) 2 (mkStored 0 (demoN 50000) 1)
      (by decide) (by decide)).2 [] [demoN 50000] 1 2 (by decide)⟩

/-- A blocked fetch result aborts without consulting any further
attempt. -/
lemma fetchWithRetry_blocked (fetch : Nat → Nat → FetchResult) (p : Nat) (r : Bool)
    (hb : fetch p 0 = .failure .blocked r) :
    fetchWithRetry fetch p = .abort .blocked := by
  have haux : ∀ rem a, fetch p a = .failure .blocked r →
      fetchWithRetryAux fetch p a rem = .abort .blocked := by
    intro rem
    cases rem with
    | zero =>
      intro a hba
      unfold fetchWithRetryAux
      rw [hba]
    | succ rem =>
      intro a hba
      unfold fetchWithRetryAux
      rw [hba]
  unfold fetchWithRetry
  exact haux retryCeiling 0 hb

/-- C6: a blocked page fetch is never retried and makes the run transition
to error immediately, while the upserts of previously completed pages and
the counters accumulated before the failure, pages_done included, are kept
exactly; in particular Scenario B: page 2 blocked leaves the run in error
with pages_done 1 and the page-1 upsert committed. -/
theorem blocked_aborts_run_immediately (fetch : Nat → Nat → FetchResult)
    (cancel : Nat → Bool) (cy now p rem : Nat) (st : OrchState) (r : Bool)
    (hb : fetch p 0 = .failure .blocked r) (hc : cancel p = false) :
    fetchWithRetry fetch p = .abort .blocked ∧
    runFrom fetch cancel cy now p (rem + 1) st =
      ({ st with status := .error, failKind := some .blocked }, []) ∧
    ((runScrape scenarioBOracle noCancel 2024 100 3 []).1.status = .error ∧
      (runScrape scenarioBOracle noCancel 2024 100 3 []).1.pagesDone = 1 ∧
      (runScrape scenarioBOracle noCancel 2024 100 3 []).1.db.length = 1 ∧
      (runScrape scenarioBOracle noCancel 2024 100 3 []).1.created = 1) := by
  have hf := fetchWithRetry_blocked fetch p r hb
  refine ⟨hf, ?_, by decide⟩
  unfold runFrom
  rw [hc, hf]
  rfl

/-- Witness for C6: the Scenario B oracle blocked on page 2. -/
theorem blocked_aborts_run_immediately_witness :
    fetchWithRetry scenarioBOracle 2 = .abort .blocked ∧
    runFrom scenarioBOracle noCancel 2024 100 2 (1 + 1) (initOrch []) =
      ({ initOrch [] with status := .error, failKind := some .blocked }, []) :=
  ⟨(blocked_aborts_run_immediately scenarioBOracle noCancel 2024 100 2 1
      (initOrch []) false (by decide) rfl).1,
   (blocked_aborts_run_immediately scenarioBOracle noCancel 2024 100 2 1
      (initOrch []) false (by decide) rfl).2.1⟩

/-- C7: a fragment whose year does not resolve to a plausible 4-digit
integer yields a ValidationFailure from normalize; such a fragment is
skipped with the error counter incremented and the rest of the page is
still processed, the run not being aborted; in particular Scenario A: a
page of 2 valid fragments and 1 fragment with an unparsable year yields 2
created listings, error counter 1 and total 2 in a completed run. -/
theorem bad_year_fragment_skipped (cy : Nat) (f : RawFragment)
    (now page i : Nat) (rest : List (Nat × RawFragment)) (st : OrchState)
    (hy : ∀ y, parseYear f.yearText = some y → yearOk cy y = false) :
    (∃ e, normalize cy f = .error e) ∧
    processFrags cy now page ((i, f) :: rest) st =
      processFrags cy now page rest { st with errors := st.errors + 1 } ∧
    ((runScrape scenarioAOracle noCancel 2024 100 3 []).1.created = 2 ∧
      (runScrape scenarioAOracle noCancel 2024 100 3 []).1.errors = 1 ∧
      (runScrape scenarioAOracle noCancel 2024 100 3 []).1.total = 2 ∧
      (runScrape scenarioAOracle noCancel 2024 100 3 []).1.status = .completed) := by
  have herr : ∃ e, normalize cy f = .error e := by
    cases hp : parseMoney f.priceText with
    | none => exact ⟨.badPrice, by unfold normalize; simp [hp]⟩
    | some price =>
      cases hm : parseMoney f.mileageText with
      | none => exact ⟨.badMileage, by unfold normalize; simp [hp, hm]⟩
      | some mileage =>
        cases hyy : parseYear f.yearText with
        | none => exact ⟨.badYear, by unfold normalize; simp [hp, hm, hyy]⟩
        | some y =>
          exact ⟨.badYear, by unfold normalize; simp [hp, hm, hyy, hy y hyy]⟩
  refine ⟨herr, ?_, by decide⟩
  obtain ⟨e, he⟩ := herr
  show processFrags cy now page ((i, f) :: rest) st = _
  simp only [processFrags]
  rw [he]

/-- Witness for C7: the Scenario A fragment with year text 20xx. -/
theorem bad_year_fragment_skipped_witness :
    (∃ e, normalize 2024 (demoFrag "b" "20xx") = .error e) ∧
    processFrags 2024 100 1 [(1, demoFrag "b" "20xx")] (initOrch []) =
      processFrags 2024 100 1 []
        { initOrch [] with errors := (initOrch []).errors + 1 } := by
  have hy : ∀ y, parseYear (demoFrag "b" "20xx").yearText = some y →
      yearOk 2024 y = false := by
    intro y h
    rw [show parseYear (demoFrag "b" "20xx").yearText = none by decide] at h
    cases h
  exact ⟨(bad_year_fragment_skipped 2024 (demoFrag "b" "20xx") 100 1 1 []
      (initOrch []) hy).1,
    (bad_year_fragment_skipped 2024 (demoFrag "b" "20xx") 100 1 1 []
      (initOrch []) hy).2.1⟩

/-- Run loop equation: a cancelled page boundary. -/
lemma runFrom_succ_cancel (fetch : Nat → Nat → FetchResult) (cancel : Nat → Bool)
    (cy now p rem : Nat) (st : OrchState) (hc : cancel p = true) :
    runFrom fetch cancel cy now p (rem + 1) st =
      ({ st with status := .cancelled }, []) := by
  simp only [runFrom]
  rw [hc]
  rfl

/-- Run loop equation: an aborting fetch outcome. -/
lemma runFrom_succ_abort (fetch : Nat → Nat → FetchResult) (cancel : Nat → Bool)
    (cy now p rem : Nat) (st : OrchState) (k : FailKind) (hc : cancel p = false)
    (hfo : fetchWithRetry fetch p = .abort k) :
    runFrom fetch cancel cy now p (rem + 1) st =
      ({ st with status := .error, failKind := some k }, []) := by
  simp only [runFrom]
  rw [hc, hfo]
  rfl

/-- Run loop equation: a skipped page. -/
lemma runFrom_succ_skip (fetch : Nat → Nat → FetchResult) (cancel : Nat → Bool)
    (cy now p rem : Nat) (st : OrchState) (hc : cancel p = false)
    (hfo : fetchWithRetry fetch p = .skip) :
    runFrom fetch cancel cy now p (rem + 1) st =
      runFrom fetch cancel cy now (p + 1) rem st := by
  simp only [runFrom]
  rw [hc, hfo]
  rfl

/-- Run loop equation: a successful page with a further page. -/
lemma runFrom_succ_ok_more (fetch : Nat → Nat → FetchResult) (cancel : Nat → Bool)
    (cy now p rem : Nat) (st : OrchState) (frags : List RawFragment)
    (hc : cancel p = false) (hfo : fetchWithRetry fetch p = .ok frags true) :
    runFrom fetch cancel cy now p (rem + 1) st =
      ((runFrom fetch cancel cy now (p + 1) rem (pageStep cy now p st frags)).1,
        .fetched p (pageStep cy now p st frags).pagesDone ::
          ((processFrags cy now p frags.enum st).2 ++
            (runFrom fetch cancel cy now (p + 1) rem
              (pageStep cy now p st frags)).2)) := by
  simp only [runFrom]
  rw [hc, hfo]
  rfl

/-- Run loop equation: a successful final page. -/
lemma runFrom_succ_ok_last (fetch : Nat → Nat → FetchResult) (cancel : Nat → Bool)
    (cy now p rem : Nat) (st : OrchState) (frags : List RawFragment)
    (hc : cancel p = false) (hfo : fetchWithRetry fetch p = .ok frags false) :
    runFrom fetch cancel cy now p (rem + 1) st =
      ({ pageStep cy now p st frags with status := .completed },
        .fetched p (pageStep cy now p st frags).pagesDone ::
          (processFrags cy now p frags.enum st).2) := by
  simp only [runFrom]
  rw [hc, hfo]
  rfl

/-- Processing fragments never touches the pages_done counter. -/
lemma processFrags_pagesDone (cy now page : Nat) :
    ∀ (l : List (Nat × RawFragment)) (st : OrchState),
      (processFrags cy now page l st).1.pagesDone = st.pagesDone := by
  intro l
  induction l with
  | nil => intro st; rfl
  | cons hd rest ih =>
    intro st
    rcases hd with ⟨i, f⟩
    simp only [processFrags]
    cases hn : normalize cy f with
    | error e => exact ih _
    | ok n => exact ih _

/-- The trace of one page is the fragment indices actually upserted, in
order, a sublist of the indices of the page. -/
lemma processFrags_trace (cy now page : Nat) :
    ∀ (l : List (Nat × RawFragment)) (st : OrchState),
      ∃ js : List Nat,
        (processFrags cy now page l st).2 = js.map (Event.upserted page) ∧
        js.Sublist (l.map Prod.fst) := by
  intro l
  induction l with
  | nil => intro st; exact ⟨[], rfl, by simp⟩
  | cons hd rest ih =>
    intro st
    rcases hd with ⟨i, f⟩
    simp only [processFrags]
    cases hn : normalize cy f with
    | error e =>
      obtain ⟨js, h1, h2⟩ := ih { st with errors := st.errors + 1 }
      exact ⟨js, h1, by simpa using h2.cons i⟩
    | ok n =>
      obtain ⟨js, h1, h2⟩ := ih (fragStep now st n)
      refine ⟨i :: js, ?_, ?_⟩
      · simp only [List.map_cons]
        rw [h1]
      · simpa using h2.cons₂ i

/-- Upsert-only traces record no pages_done values. -/
lemma pagesDoneSeq_map_upserted (page : Nat) (js : List Nat) :
    pagesDoneSeq (js.map (Event.upserted page)) = [] := by
  induction js with
  | nil => rfl
  | cons j js ih => simp [pagesDoneSeq, List.filterMap_cons, ih]

/-- Upsert-only traces record no fetched pages. -/
lemma fetchedPages_map_upserted (page : Nat) (js : List Nat) :
    fetchedPages (js.map (Event.upserted page)) = [] := by
  induction js with
  | nil => rfl
  | cons j js ih => simp [fetchedPages, List.filterMap_cons, ih]

/-- The indices an upsert-only trace contributes to a page. -/
lemma upsertIdxs_map_upserted (q page : Nat) (js : List Nat) :
    upsertIdxs q (js.map (Event.upserted page)) = if page = q then js else [] := by
  induction js with
  | nil => unfold upsertIdxs; split <;> rfl
  | cons j js ih =>
    by_cases h : page = q
    · simp only [h, if_pos] at ih ⊢
      simpa [upsertIdxs, List.filterMap_cons, h] using ih
    · simp only [h, if_neg, not_false_eq_true] at ih ⊢
      simpa [upsertIdxs, List.filterMap_cons, h] using ih

/-- pagesDoneSeq distributes over a fetched head. -/
lemma pagesDoneSeq_cons_fetched (p d : Nat) (tr : List Event) :
    pagesDoneSeq (Event.fetched p d :: tr) = d :: pagesDoneSeq tr := by
  simp [pagesDoneSeq, List.filterMap_cons]

/-- pagesDoneSeq distributes over append. -/
lemma pagesDoneSeq_append (a b : List Event) :
    pagesDoneSeq (a ++ b) = pagesDoneSeq a ++ pagesDoneSeq b := by
  simp [pagesDoneSeq]

/-- fetchedPages distributes over a fetched head. -/
lemma fetchedPages_cons_fetched (p d : Nat) (tr : List Event) :
    fetchedPages (Event.fetched p d :: tr) = p :: fetchedPages tr := by
  simp [fetchedPages, List.filterMap_cons]

/-- fetchedPages distributes over append. -/
lemma fetchedPages_append (a b : List Event) :
    fetchedPages (a ++ b) = fetchedPages a ++ fetchedPages b := by
  simp [fetchedPages]

/-- upsertIdxs skips a fetched head. -/
lemma upsertIdxs_cons_fetched (q p d : Nat) (tr : List Event) :
    upsertIdxs q (Event.fetched p d :: tr) = upsertIdxs q tr := by
  simp [upsertIdxs, List.filterMap_cons]

/-- upsertIdxs distributes over append. -/
lemma upsertIdxs_append (q : Nat) (a b : List Event) :
    upsertIdxs q (a ++ b) = upsertIdxs q a ++ upsertIdxs q b := by
  simp [upsertIdxs]

/-- A page value in fetchedPages comes from an event of the trace. -/
lemma eventPage_of_mem_fetchedPages (q : Nat) (tr : List Event)
    (h : q ∈ fetchedPages tr) : ∃ e ∈ tr, eventPage e = q := by
  unfold fetchedPages at h
  obtain ⟨e, he, hfe⟩ := List.mem_filterMap.mp h
  refine ⟨e, he, ?_⟩
  cases e with
  | fetched p d =>
    have : p = q := by simpa using hfe
    simpa [eventPage] using this
  | upserted p i => simp at hfe

/-- A trace whose events all lie on later pages contributes no upsert
indices to an earlier page. -/
lemma upsertIdxs_nil_of_gt (q : Nat) (tr : List Event)
    (h : ∀ e ∈ tr, q < eventPage e) : upsertIdxs q tr = [] := by
  induction tr with
  | nil => rfl
  | cons e tr ih =>
    have hrest := ih (fun e' he' => h e' (List.mem_cons_of_mem _ he'))
    cases e with
    | fetched p d =>
      rw [upsertIdxs_cons_fetched]
      exact hrest
    | upserted p i =>
      have hpq : p ≠ q := by
        have := h _ (List.mem_cons_self _ _)
        simp [eventPage] at this
        omega
      simpa [upsertIdxs, List.filterMap_cons, hpq] using hrest

/-- The pages_done value recorded for a processed page is the previous
value plus one. -/
lemma pageStep_pagesDone (cy now p : Nat) (st : OrchState)
    (frags : List RawFragment) :
    (pageStep cy now p st frags).pagesDone = st.pagesDone + 1 := by
  show (processFrags cy now p frags.enum st).1.pagesDone + 1 = st.pagesDone + 1
  rw [processFrags_pagesDone]

/-- Every event of a run suffix lies on the current page or a later one. -/
lemma runFrom_events_ge (fetch : Nat → Nat → FetchResult) (cancel : Nat → Bool)
    (cy now : Nat) :
    ∀ (rem p : Nat) (st : OrchState) (e : Event),
      e ∈ (runFrom fetch cancel cy now p rem st).2 → p ≤ eventPage e := by
  intro rem
  induction rem with
  | zero =>
    intro p st e he
    simp [runFrom] at he
  | succ rem ih =>
    intro p st e he
    cases hc : cancel p with
    | true =>
      rw [runFrom_succ_cancel fetch cancel cy now p rem st hc] at he
      simp at he
    | false =>
      cases hfo : fetchWithRetry fetch p with
      | abort k =>
        rw [runFrom_succ_abort fetch cancel cy now p rem st k hc hfo] at he
        simp at he
      | skip =>
        rw [runFrom_succ_skip fetch cancel cy now p rem st hc hfo] at he
        exact Nat.le_of_succ_le (ih (p + 1) st e he)
      | ok frags hasMore =>
        cases hasMore with
        | true =>
          rw [runFrom_succ_ok_more fetch cancel cy now p rem st frags hc hfo] at he
          simp only [List.mem_cons, List.mem_append] at he
          rcases he with rfl | he | he
          · exact le_rfl
          · obtain ⟨js, hjs, _⟩ := processFrags_trace cy now p frags.enum st
            rw [hjs] at he
            obtain ⟨j, _, rfl⟩ := List.mem_map.mp he
            exact le_rfl
          · exact Nat.le_of_succ_le (ih (p + 1) _ e he)
        | false =>
          rw [runFrom_succ_ok_last fetch cancel cy now p rem st frags hc hfo] at he
          simp only [List.mem_cons] at he
          rcases he with rfl | he
          · exact le_rfl
          · obtain ⟨js, hjs, _⟩ := processFrags_trace cy now p frags.enum st
            rw [hjs] at he
            obtain ⟨j, _, rfl⟩ := List.mem_map.mp he
            exact le_rfl

/-- Every pages_done value recorded along a run suffix is strictly above
the entry value and within the remaining budget. -/
lemma runFrom_pagesDone_bounds (fetch : Nat → Nat → FetchResult)
    (cancel : Nat → Bool) (cy now : Nat) :
    ∀ (rem p : Nat) (st : OrchState) (v : Nat),
      v ∈ pagesDoneSeq (runFrom fetch cancel cy now p rem st).2 →
      st.pagesDone + 1 ≤ v ∧ v ≤ st.pagesDone + rem := by
  intro rem
  induction rem with
  | zero =>
    intro p st v hv
    simp [runFrom, pagesDoneSeq] at hv
  | succ rem ih =>
    intro p st v hv
    cases hc : cancel p with
    | true =>
      rw [runFrom_succ_cancel fetch cancel cy now p rem st hc] at hv
      simp [pagesDoneSeq] at hv
    | false =>
      cases hfo : fetchWithRetry fetch p with
      | abort k =>
        rw [runFrom_succ_abort fetch cancel cy now p rem st k hc hfo] at hv
        simp [pagesDoneSeq] at hv
      | skip =>
        rw [runFrom_succ_skip fetch cancel cy now p rem st hc hfo] at hv
        have := ih (p + 1) st v hv
        omega
      | ok frags hasMore =>
        have hpd := pageStep_pagesDone cy now p st frags
        obtain ⟨js, hjs, _⟩ := processFrags_trace cy now p frags.enum st
        cases hasMore with
        | true =>
          rw [runFrom_succ_ok_more fetch cancel cy now p rem st frags hc hfo] at hv
          rw [hjs, pagesDoneSeq_cons_fetched, pagesDoneSeq_append,
            pagesDoneSeq_map_upserted, List.nil_append] at hv
          rcases List.mem_cons.mp hv with rfl | hv
          · omega
          · have := ih (p + 1) (pageStep cy now p st frags) v hv
            omega
        | false =>
          rw [runFrom_succ_ok_last fetch cancel cy now p rem st frags hc hfo] at hv
          rw [hjs, pagesDoneSeq_cons_fetched, pagesDoneSeq_map_upserted] at hv
          rcases List.mem_cons.mp hv with rfl | hv
          · omega
          · simp at hv

/-- The pages_done values recorded along a run suffix are non-decreasing. -/
lemma runFrom_pagesDone_sorted (fetch : Nat → Nat → FetchResult)
    (cancel : Nat → Bool) (cy now : Nat) :
    ∀ (rem p : Nat) (st : OrchState),
      List.Pairwise (· ≤ ·) (pagesDoneSeq (runFrom fetch cancel cy now p rem st).2) := by
  intro rem
  induction rem with
  | zero =>
    intro p st
    simp [runFrom, pagesDoneSeq]
  | succ rem ih =>
    intro p st
    cases hc : cancel p with
    | true =>
      rw [runFrom_succ_cancel fetch cancel cy now p rem st hc]
      simp [pagesDoneSeq]
    | false =>
      cases hfo : fetchWithRetry fetch p with
      | abort k =>
        rw [runFrom_succ_abort fetch cancel cy now p rem st k hc hfo]
        simp [pagesDoneSeq]
      | skip =>
        rw [runFrom_succ_skip fetch cancel cy now p rem st hc hfo]
        exact ih (p + 1) st
      | ok frags hasMore =>
        have hpd := pageStep_pagesDone cy now p st frags
        obtain ⟨js, hjs, _⟩ := processFrags_trace cy now p frags.enum st
        cases hasMore with
        | true =>
          rw [runFrom_succ_ok_more fetch cancel cy now p rem st frags hc hfo]
          rw [hjs, pagesDoneSeq_cons_fetched, pagesDoneSeq_append,
            pagesDoneSeq_map_upserted, List.nil_append]
          refine List.pairwise_cons.mpr ⟨?_, ih (p + 1) _⟩
          intro v hv
          have := runFrom_pagesDone_bounds fetch cancel cy now rem (p + 1)
            (pageStep cy now p st frags) v hv
          omega
        | false =>
          rw [runFrom_succ_ok_last fetch cancel cy now p rem st frags hc hfo]
          rw [hjs, pagesDoneSeq_cons_fetched, pagesDoneSeq_map_upserted]
          simp

/-- The pages recorded as processed along a run suffix are strictly
increasing. -/
lemma runFrom_pages_sorted (fetch : Nat → Nat → FetchResult)
    (cancel : Nat → Bool) (cy now : Nat) :
    ∀ (rem p : Nat) (st : OrchState),
      List.Pairwise (· < ·) (fetchedPages (runFrom fetch cancel cy now p rem st).2) := by
  intro rem
  induction rem with
  | zero =>
    intro p st
    simp [runFrom, fetchedPages]
  | succ rem ih =>
    intro p st
    cases hc : cancel p with
    | true =>
      rw [runFrom_succ_cancel fetch cancel cy now p rem st hc]
      simp [fetchedPages]
    | false =>
      cases hfo : fetchWithRetry fetch p with
      | abort k =>
        rw [runFrom_succ_abort fetch cancel cy now p rem st k hc hfo]
        simp [fetchedPages]
      | skip =>
        rw [runFrom_succ_skip fetch cancel cy now p rem st hc hfo]
        exact ih (p + 1) st
      | ok frags hasMore =>
        obtain ⟨js, hjs, _⟩ := processFrags_trace cy now p frags.enum st
        cases hasMore with
        | true =>
          rw [runFrom_succ_ok_more fetch cancel cy now p rem st frags hc hfo]
          rw [hjs, fetchedPages_cons_fetched, fetchedPages_append,
            fetchedPages_map_upserted, List.nil_append]
          refine List.pairwise_cons.mpr ⟨?_, ih (p + 1) _⟩
          intro q hq
          obtain ⟨e, he, rfl⟩ := eventPage_of_mem_fetchedPages q _ hq
          exact runFrom_events_ge fetch cancel cy now rem (p + 1) _ e he
        | false =>
          rw [runFrom_succ_ok_last fetch cancel cy now p rem st frags hc hfo]
          rw [hjs, fetchedPages_cons_fetched, fetchedPages_map_upserted]
          simp

/-- Within every page of a run suffix, the fragment indices are upserted
in strictly increasing page order. -/
lemma runFrom_idxs_sorted (fetch : Nat → Nat → FetchResult)
    (cancel : Nat → Bool) (cy now : Nat) :
    ∀ (rem p : Nat) (st : OrchState) (q : Nat),
      List.Pairwise (· < ·) (upsertIdxs q (runFrom fetch cancel cy now p rem st).2) := by
  intro rem
  induction rem with
  | zero =>
    intro p st q
    simp [runFrom, upsertIdxs]
  | succ rem ih =>
    intro p st q
    cases hc : cancel p with
    | true =>
      rw [runFrom_succ_cancel fetch cancel cy now p rem st hc]
      simp [upsertIdxs]
    | false =>
      cases hfo : fetchWithRetry fetch p with
      | abort k =>
        rw [runFrom_succ_abort fetch cancel cy now p rem st k hc hfo]
        simp [upsertIdxs]
      | skip =>
        rw [runFrom_succ_skip fetch cancel cy now p rem st hc hfo]
        exact ih (p + 1) st q
      | ok frags hasMore =>
        obtain ⟨js, hjs, hsub⟩ := processFrags_trace cy now p frags.enum st
        have hrange : js.Sublist (List.range frags.length) := by
          rw [← List.enum_map_fst frags]
          exact hsub
        cases hasMore with
        | true =>
          rw [runFrom_succ_ok_more fetch cancel cy now p rem st frags hc hfo]
          rw [hjs, upsertIdxs_cons_fetched, upsertIdxs_append,
            upsertIdxs_map_upserted]
          by_cases hq : p = q
          · have htr2 : upsertIdxs q
                (runFrom fetch cancel cy now (p + 1) rem
                  (pageStep cy now p st frags)).2 = [] := by
              apply upsertIdxs_nil_of_gt
              intro e he
              have := runFrom_events_ge fetch cancel cy now rem (p + 1) _ e he
              omega
            rw [htr2, if_pos hq, List.append_nil]
            exact List.Pairwise.sublist hrange (List.pairwise_lt_range _)
          · rw [if_neg hq, List.nil_append]
            exact ih (p + 1) _ q
        | false =>
          rw [runFrom_succ_ok_last fetch cancel cy now p rem st frags hc hfo]
          rw [hjs, upsertIdxs_cons_fetched, upsertIdxs_map_upserted]
          by_cases hq : p = q
          · rw [if_pos hq]
            exact List.Pairwise.sublist hrange (List.pairwise_lt_range _)
          · rw [if_neg hq]
            exact List.Pairwise.nil

/-- C8: within one run, the recorded pages_done values are non-decreasing
and never exceed max_pages, pages are fetched and processed in strictly
increasing page-number order, and the fragments of every page are upserted
in increasing page order. -/
theorem run_progress_and_order (fetch : Nat → Nat → FetchResult)
    (cancel : Nat → Bool) (cy now maxPages : Nat) (db : ListingDb) :
    List.Pairwise (· ≤ ·)
      (pagesDoneSeq (runScrape fetch cancel cy now maxPages db).2) ∧
    (∀ v ∈ pagesDoneSeq (runScrape fetch cancel cy now maxPages db).2,
      v ≤ maxPages) ∧
    List.Pairwise (· < ·)
      (fetchedPages (runScrape fetch cancel cy now maxPages db).2) ∧
    (∀ q, List.Pairwise (· < ·)
      (upsertIdxs q (runScrape fetch cancel cy now maxPages db).2)) := by
  unfold runScrape
  refine ⟨runFrom_pagesDone_sorted fetch cancel cy now maxPages 1 (initOrch db),
    ?_, runFrom_pages_sorted fetch cancel cy now maxPages 1 (initOrch db),
    fun q => runFrom_idxs_sorted fetch cancel cy now maxPages 1 (initOrch db) q⟩
  intro v hv
  have hb := runFrom_pagesDone_bounds fetch cancel cy now maxPages 1
    (initOrch db) v hv
  have h0 : (initOrch db).pagesDone = 0 := rfl
  omega

/-- Witness for C1: two back-to-back starts from an empty registry. -/
theorem startRun_single_run_invariant_witness :
    ((startRun ⟨[]⟩ 5 10).2 = .ok 0 ∧
      (startRun ⟨[]⟩ 5 10).1.runs.length = 0 + 1 ∧
      countActive (startRun ⟨[]⟩ 5 10).1 = 1) ∧
    (startRun (startRun ⟨[]⟩ 5 10).1 7 20 =
      ((startRun ⟨[]⟩ 5 10).1, .error .alreadyRunning) ∧
      countActive (startRun (startRun ⟨[]⟩ 5 10).1 7 20).1 = 1) :=
  ⟨(startRun_single_run_invariant ⟨[]⟩ 5 7 10 20 (by decide)).2.1,
   (startRun_single_run_invariant ⟨[]⟩ 5 7 10 20 (by decide)).2.2⟩

/-- Witness for C8: the monotonicity and ordering facts instantiated on
the Scenario A run. -/
theorem run_progress_and_order_witness :
    List.Pairwise (· ≤ ·)
      (pagesDoneSeq (runScrape scenarioAOracle noCancel 2024 100 3 []).2) ∧
    (∀ v ∈ pagesDoneSeq (runScrape scenarioAOracle noCancel 2024 100 3 []).2,
      v ≤ 3) ∧
    List.Pairwise (· < ·)
      (fetchedPages (runScrape scenarioAOracle noCancel 2024 100 3 []).2) ∧
    (∀ q, List.Pairwise (· < ·)
      (upsertIdxs q (runScrape scenarioAOracle noCancel 2024 100 3 []).2)) :=
  run_progress_and_order scenarioAOracle noCancel 2024 100 3 []

/-- Witness for C10: a completed payload still overwrites the error
field. -/
theorem checkScrapeStatus_sets_error_to_payload_witness :
    (checkScrapeStatusFulfilled ⟨[], none, true, none, 0⟩
        ⟨"t", "completed", some (1, 2, 3), none⟩).error =
      some (.payloadVal ⟨"t", "completed", some (1, 2, 3), none⟩) ∧
    (checkScrapeStatusFulfilled ⟨[], none, true, none, 0⟩
        ⟨"t", "completed", some (1, 2, 3), none⟩).error ≠ none :=
  checkScrapeStatus_sets_error_to_payload ⟨[], none, true, none, 0⟩
    ⟨"t", "completed", some (1, 2, 3), none⟩

end Drivez
